import Mathlib

/-!
Verification of the UE_Plugin_RefExplorer reference-explorer core against its
specification.  The definitions below are a shallow embedding of the plugin
code in src/Plugins/RefExplorer/Source/RefExplorer/Private/RefExplorerEditorModule.cpp
(the RefExplorer variant) and src/unnamed/part_001 (the parallel
ReferenceExplorer variant).

Modelling conventions:
* FName package and object names are modelled as naturals; FName::LexicalLess
  is modelled by the order on naturals; NAME_None is modelled by Option.none.
* The Unreal TMap is modelled as an association list in insertion order
  (TMap iteration visits entries in insertion order, and FindOrAdd appends a
  missing key at the end), the TSet likewise as a duplicate-free list.
* The external asset registry (dependency index) is a read-only collaborator;
  it is modelled as a structure of query functions.
* float arithmetic in the radial layout is modelled as exact real arithmetic;
  the truncation of float positions to integer node coordinates is not
  modelled, since every claim is about the real-valued layout formulas.
-/

namespace RefExplorer

/-- FAssetIdentifier, keyed by (PackageName, ObjectName).  PackageName of
Option.none models NAME_None. -/
structure AssetId where
  packageName : Option Nat
  objectName : Nat
deriving DecidableEq, Repr

/-- UE::AssetRegistry::EDependencyCategory (closed enumeration). -/
inductive DepCategory
  | package
  | manage
  | searchableName
deriving DecidableEq, Repr

/-- The EDependencyProperty flags the classifier inspects (Hard, Direct, Game). -/
structure DepProps where
  hard : Bool
  direct : Bool
  game : Bool
deriving DecidableEq, Repr

/-- FAssetDependency: one raw record returned by IAssetRegistry::GetReferencers. -/
structure AssetDependency where
  assetId : AssetId
  category : DepCategory
  properties : DepProps
deriving DecidableEq, Repr

/-- FRefExplorerEditorModule_PRIVATE::EDependencyPinCategory, a bitmask:
bit 0 is LinkEndActive (LinkEndPassive when clear), bit 1 is
LinkTypeUsedInGame, bit 2 is LinkTypeHard (LinkTypeNone when both clear). -/
structure PinCategory where
  active : Bool
  usedInGame : Bool
  hard : Bool
deriving DecidableEq, Repr

/-- Bitwise OR of two EDependencyPinCategory values. -/
def PinCategory.or (a b : PinCategory) : PinCategory :=
  ⟨a.active || b.active, a.usedInGame || b.usedInGame, a.hard || b.hard⟩

/-- EDependencyPinCategory::LinkEndActive, the FindOrAdd default in GetSortedLinks. -/
def linkEndActive : PinCategory := ⟨true, false, false⟩

/-- LinkEndActive with LinkTypeNone: the value the spec calls soft, editor-only. -/
def softEditorOnlyCat : PinCategory := ⟨true, false, false⟩

/-- LinkEndActive or LinkTypeUsedInGame: soft, used-in-game. -/
def softUsedInGameCat : PinCategory := ⟨true, true, false⟩

/-- The pin-category display names produced by
FRefExplorerEditorModule_PRIVATE::GetName (DependencyPinCategory names). -/
inductive PinName
  | passive
  | hardUsedInGame
  | hardEditorOnly
  | softUsedInGame
  | softEditorOnly
deriving DecidableEq, Repr

/-- The pin colors produced by FRefExplorerEditorModule_PRIVATE::GetColor
(one per DependencyPinCategory color constant). -/
inductive PinColor
  | passive
  | hardUsedInGame
  | hardEditorOnly
  | softUsedInGame
  | softEditorOnly
deriving DecidableEq, Repr

/-- FRefExplorerEditorModule_PRIVATE::GetColor: ColorPassive when the
LinkEndMask bits are LinkEndPassive, otherwise a switch on the LinkTypeMask
bits. -/
def getColor (c : PinCategory) : PinColor :=
  if c.active = false then
    PinColor.passive
  else
    match c.hard, c.usedInGame with
    | true, true => PinColor.hardUsedInGame
    | true, false => PinColor.hardEditorOnly
    | false, true => PinColor.softUsedInGame
    | false, false => PinColor.softEditorOnly

/-- FRefExplorerEditorModule_PRIVATE::GetName: Passive when the LinkEndMask
bits are LinkEndPassive, otherwise a switch on the LinkTypeMask bits. -/
def getName (c : PinCategory) : PinName :=
  if c.active = false then
    PinName.passive
  else
    match c.hard, c.usedInGame with
    | true, true => PinName.hardUsedInGame
    | true, false => PinName.hardEditorOnly
    | false, true => PinName.softUsedInGame
    | false, false => PinName.softEditorOnly

/-- The CategoryOrder lambda in UEdGraph_RefExplorer::GetSortedLinks:
Package is 0, Manage is 1, SearchableName is 2. -/
def categoryOrder : DepCategory → Nat
  | DepCategory.package => 0
  | DepCategory.manage => 1
  | DepCategory.searchableName => 2

/-- The IsHard lambda: Hard or Direct flag present. -/
def isHardProps (p : DepProps) : Bool := p.hard || p.direct

/-- FName::LexicalLess modelled on Option Nat (NAME_None sorts first, as the
lexically least name; the claims never compare NAME_None). -/
def nameLess : Option Nat → Option Nat → Bool
  | none, none => false
  | none, some _ => true
  | some _, none => false
  | some a, some b => a < b

/-- The strict comparison passed to Algo::Sort in GetSortedLinks: by category
order, then (only when the raw property masks differ) by hardness descending,
then by lexical package name. -/
def depLess (a b : AssetDependency) : Bool :=
  if a.category ≠ b.category then
    decide (categoryOrder a.category < categoryOrder b.category)
  else if a.properties ≠ b.properties ∧ isHardProps a.properties ≠ isHardProps b.properties then
    isHardProps a.properties
  else
    nameLess a.assetId.packageName b.assetId.packageName

/-- Insert an element into a list already sorted by the strict predicate
less, placing it before the first element it is not greater than. -/
def insertLess (less : α → α → Bool) (x : α) : List α → List α
  | [] => [x]
  | y :: ys => if less y x then y :: insertLess less x ys else x :: y :: ys

/-- Model of Algo::Sort with a strict comparison predicate.  Algo::Sort is an
unstable comparison sort; insertion sort is one comparison sort for the same
predicate, and on the inputs of the claims the predicate is total, so every
comparison sort produces the same output. -/
def sortByLess (less : α → α → Bool) (l : List α) : List α :=
  l.foldr (insertLess less) []

/-- The category bits one raw record contributes in the accumulation loop of
GetSortedLinks: LinkEndActive, LinkTypeHard when Hard or Direct is present,
and LinkTypeUsedInGame when the category is not Package or Game is present. -/
def recordCategory (d : AssetDependency) : PinCategory :=
  ⟨true, decide (d.category ≠ DepCategory.package) || d.properties.game, isHardProps d.properties⟩

/-- OutLinks.FindOrAdd(id, LinkEndActive) followed by the three in-place ORs:
an existing entry is ORed with the record bits, a missing key is appended at
the end with value LinkEndActive ORed with the record bits. -/
def upsert (k : AssetId) (c : PinCategory) : List (AssetId × PinCategory) → List (AssetId × PinCategory)
  | [] => [(k, linkEndActive.or c)]
  | (k₁, c₁) :: rest =>
      if k₁ = k then (k₁, c₁.or c) :: rest else (k₁, c₁) :: upsert k c rest

/-- The accumulation loop of GetSortedLinks run from an arbitrary map state. -/
def classifyGo (m : List (AssetId × PinCategory)) (l : List AssetDependency) : List (AssetId × PinCategory) :=
  l.foldl (fun m d => upsert d.assetId (recordCategory d) m) m

/-- The accumulation loop of GetSortedLinks: fold the raw records into the
OutLinks map, starting from the empty map. -/
def classify (l : List AssetDependency) : List (AssetId × PinCategory) :=
  classifyGo [] l

/-- TMap::Find on the modelled association list. -/
def lookupCat (k : AssetId) : List (AssetId × PinCategory) → Option PinCategory
  | [] => none
  | (k₁, c₁) :: rest => if k₁ = k then some c₁ else lookupCat k rest

/-- The sort order as the spec words it: (a) category priority Package,
Manage, SearchableName ascending, (b) hardness descending, (c) lexical
package-name order ascending.  Defined from the spec text, to be compared
with depLess which is defined from the source comparator. -/
def specSortLess (a b : AssetDependency) : Bool :=
  if categoryOrder a.category ≠ categoryOrder b.category then
    decide (categoryOrder a.category < categoryOrder b.category)
  else if isHardProps a.properties ≠ isHardProps b.properties then
    isHardProps a.properties
  else
    nameLess a.assetId.packageName b.assetId.packageName

/-- The read-only asset registry as seen by the post-filter of
GetSortedLinks: GetAssetPackageDataCopy is modelled by the DiskSize it would
return (none when no package data resolves), GetAssetsByPackageName followed
by the IsRedirector scan is modelled by the hasRedirector flag, and
GetReferencers for a package by the referencers list. -/
structure Registry where
  packageDiskSize : Nat → Option Int
  hasRedirector : Nat → Bool
  referencers : Nat → List AssetId

/-- The bad-package test of the post-filter: no package data resolves, or
its DiskSize is negative. -/
def badPackage (reg : Registry) (pkg : Nat) : Bool :=
  match reg.packageDiskSize pkg with
  | none => true
  | some size => decide (size < 0)

/-- An identifier the post-filter can never remove: its package name is
NAME_None, or its package data resolves with non-negative size. -/
def goodId (reg : Registry) (a : AssetId) : Bool :=
  match a.packageName with
  | none => true
  | some pkg => !(badPackage reg pkg)

/-- The index-based removal/substitution loop over ReferenceIds in
GetSortedLinks.  A bad package is removed at the current index; if its
package holds a redirector asset, the redirector's own referencers are
inserted at the same index; the loop then re-examines the same index
(Index-- followed by the loop increment).  The C++ loop has no termination
guard, so the model carries fuel and returns none when fuel runs out. -/
def filterLoop (reg : Registry) : Nat → List AssetId → Nat → Option (List AssetId)
  | 0, _, _ => none
  | fuel+1, ids, idx =>
    if h : idx < ids.length then
      match ids[idx].packageName with
      | none => filterLoop reg fuel ids (idx+1)
      | some pkg =>
          if badPackage reg pkg then
            filterLoop reg fuel
              (if reg.hasRedirector pkg then
                (ids.eraseIdx idx).take idx ++ reg.referencers pkg ++ (ids.eraseIdx idx).drop idx
               else ids.eraseIdx idx) idx
          else filterLoop reg fuel ids (idx+1)
    else some ids

/-- UEdGraph_RefExplorer::GetSortedLinks for one root: classify the raw
records returned by the index (sort, then accumulate into OutLinks), run
the bad-package/redirector loop over the key array, and finally remove from
OutLinks every key that did not survive in ReferenceIds.  The final map
only ever loses entries in this last pass; it never gains any. -/
def getSortedLinks (reg : Registry) (records : List AssetDependency) (fuel : Nat) :
    Option (List (AssetId × PinCategory)) :=
  let m := classify (sortByLess depLess records)
  match filterLoop reg fuel (m.map Prod.fst) 0 with
  | none => none
  | some finalIds => some (m.filter (fun p => decide (p.1 ∈ finalIds)))

/-- FRefExplorerNodeInfo.  The AssetData metadata member is omitted: it is
filled by one batched registry query after the adjacency is built and is
never read by the children/parents/layout logic the claims are about. -/
structure NodeInfo where
  id : AssetId
  children : List (AssetId × PinCategory)
  parents : List AssetId
deriving DecidableEq, Repr

/-- FRefExplorerNodeInfo(InAssetId): fresh info with empty adjacency. -/
def emptyInfo (id : AssetId) : NodeInfo := ⟨id, [], []⟩

/-- The RefExplorerNodeInfos TMap in insertion order. -/
abbrev Table := List (AssetId × NodeInfo)

/-- TMap::Find on the node-info table. -/
def tableLookup (k : AssetId) : Table → Option NodeInfo
  | [] => none
  | (k₁, v) :: rest => if k₁ = k then some v else tableLookup k rest

/-- In-place update of the entry holding key k (first occurrence). -/
def tableModify (k : AssetId) (f : NodeInfo → NodeInfo) : Table → Table
  | [] => []
  | (k₁, v) :: rest => if k₁ = k then (k₁, f v) :: rest else (k₁, v) :: tableModify k f rest

/-- One iteration of the ReferenceLinks loop in UEdGraph_RefExplorer::RebuildGraph:
a target not yet in the table is inserted with the root as its only parent
and the edge is appended to the root's children; a known target gains the
root as a parent (and the edge) only when the root is not already among its
parents; otherwise nothing happens. -/
def rebuildStep (root : AssetId) (t : Table) (pair : AssetId × PinCategory) : Table :=
  match tableLookup pair.1 t with
  | none =>
      tableModify root (fun info => { info with children := info.children ++ [pair] })
        (t ++ [(pair.1, { emptyInfo pair.1 with parents := [root] })])
  | some info =>
      if root ∈ info.parents then t
      else
        tableModify root (fun info => { info with children := info.children ++ [pair] })
          (tableModify pair.1 (fun info => { info with parents := info.parents ++ [root] }) t)

/-- UEdGraph_RefExplorer::RebuildGraph up to the adjacency table: the prior
table is discarded (RemoveAllNodes and RefExplorerNodeInfos.Reset), the root
info is inserted, and the classified links are folded in.  The prior
argument models the member state before the call; the result never depends
on it. -/
def rebuildGraph (prior : Table) (root : AssetId) (links : List (AssetId × PinCategory)) : Table :=
  links.foldl (rebuildStep root) [(root, emptyInfo root)]

/-- The children recorded for k, empty when k has no entry. -/
def childrenOf (t : Table) (k : AssetId) : List (AssetId × PinCategory) :=
  match tableLookup k t with
  | some info => info.children
  | none => []

/-- The parents recorded for k, empty when k has no entry. -/
def parentsOf (t : Table) (k : AssetId) : List AssetId :=
  match tableLookup k t with
  | some info => info.parents
  | none => []

/-- The exact table RebuildGraph produces, as a closed form: the root entry
carrying the accumulated children and root parents, followed by one fresh
entry per non-root child key in insertion order. -/
def shapeTable (root : AssetId) (cs : List (AssetId × PinCategory)) (rp : List AssetId)
    (ks : List AssetId) : Table :=
  (root, ⟨root, cs, rp⟩) :: ks.map (fun k => (k, ⟨k, [], [root]⟩))

/-- The visual node tree created by RecursivelyCreateNodes, positions
omitted (the position formulas are modelled separately below). -/
inductive VTree where
  | node (id : AssetId) (children : List VTree)

mutual

/-- Depth of a visual tree (a leaf has depth 1). -/
def VTree.depth : VTree → Nat
  | VTree.node _ cs => 1 + VTree.depthList cs

/-- Largest depth among a list of visual trees. -/
def VTree.depthList : List VTree → Nat
  | [] => 0
  | c :: cs => max (VTree.depth c) (VTree.depthList cs)

end

/-- UEdGraph_RefExplorer::RecursivelyCreateNodes as a tree builder: a node
for the asset, one recursively created subtree per recorded child.  The C++
recursion has no depth guard (it relies on non-root infos having no
children), so the model carries fuel. -/
def recurseCreate (t : Table) : Nat → AssetId → VTree
  | 0, k => VTree.node k []
  | fuel+1, k => VTree.node k ((childrenOf t k).map (fun p => recurseCreate t fuel p.1))

/-- The SRefExplorer widget state touched by the rebuild/notification logic:
the graph's node-info table, the number of OnFilesLoaded subscriptions held
by this widget, whether AssetRefreshHandle is valid, the number of
asset-changed subscriptions, and the bDirtyResults flag. -/
structure SRefState where
  table : Table
  filesLoadedSubs : Nat
  refreshHandleValid : Bool
  changeSubs : Nat
  dirtyResults : Bool

/-- SRefExplorer::RebuildGraph.  While the index is loading, the only effect
is to subscribe OnInitialAssetRegistrySearchComplete to OnFilesLoaded,
guarded by IsBoundToObject; otherwise the graph object rebuilds, the dirty
flag clears, and the three asset-changed handlers are registered once,
guarded by AssetRefreshHandle.IsValid. -/
def widgetRebuild (loading : Bool) (root : AssetId) (links : List (AssetId × PinCategory))
    (s : SRefState) : SRefState :=
  if loading then
    if s.filesLoadedSubs = 0 then { s with filesLoadedSubs := s.filesLoadedSubs + 1 } else s
  else
    let s₁ := { s with table := rebuildGraph s.table root links, dirtyResults := false }
    if s₁.refreshHandleValid then s₁
    else { s₁ with refreshHandleValid := true, changeSubs := s₁.changeSubs + 3 }

/-- SRefExplorer::OnAssetRegistryChanged: the body is the single assignment
bDirtyResults = true. -/
def onAssetRegistryChanged (s : SRefState) : SRefState :=
  { s with dirtyResults := true }

/-- SRefExplorer::OnInitialAssetRegistrySearchComplete: the deferred
continuation rebuilds the graph object (and triggers a zoom, out of scope). -/
def onInitialSearchComplete (root : AssetId) (links : List (AssetId × PinCategory))
    (s : SRefState) : SRefState :=
  { s with table := rebuildGraph s.table root links }

/-- SRefExplorer::RefreshClicked calls RebuildGraph. -/
def refreshClicked (loading : Bool) (root : AssetId) (links : List (AssetId × PinCategory))
    (s : SRefState) : SRefState :=
  widgetRebuild loading root links s

/-- A sequence of rebuild requests against one widget instance, each with
its own loading flag, root and classified links. -/
def runRebuildRequests (s : SRefState)
    (reqs : List (Bool × AssetId × List (AssetId × PinCategory))) : SRefState :=
  reqs.foldl (fun s r => widgetRebuild r.1 r.2.1 r.2.2 s) s

noncomputable section

/-- DeltaAngle in UEdGraph_ReferenceExplorer::RecursivelyCreateNodes
(src/unnamed/part_001): UE_PI divided by the child count. -/
def reDeltaAngle (n : Nat) : ℝ := Real.pi / n

/-- LastAngle in the same function: DeltaAngle times (n == 1 ? 0 : n - 1). -/
def reLastAngle (n : Nat) : ℝ :=
  reDeltaAngle n * (if n = 1 then 0 else ((n - 1 : Nat) : ℝ))

/-- Radius in the same function, NodeRadius = 400. -/
def reRadius (n : Nat) : ℝ :=
  400 / max |1 - Real.cos (reDeltaAngle n)| |Real.sin (reDeltaAngle n)|

/-- The angle of child i there: AccumAngle + (UE_PI - LastAngle / 2). -/
def reAngle (n i : Nat) : ℝ := i * reDeltaAngle n + (Real.pi - reLastAngle n / 2)

/-- ChildLoc.X in UEdGraph_ReferenceExplorer::RecursivelyCreateNodes. -/
def reChildX (px : ℝ) (n i : Nat) : ℝ := px + reRadius n * Real.cos (reAngle n i)

/-- ChildLoc.Y in UEdGraph_ReferenceExplorer::RecursivelyCreateNodes. -/
def reChildY (py : ℝ) (n i : Nat) : ℝ := py - reRadius n * Real.sin (reAngle n i)

/-- DeltaAngle in UEdGraph_RefExplorer::RecursivelyCreateNodes
(RefExplorerEditorModule.cpp). -/
def refexDeltaAngle (n : Nat) : ℝ := Real.pi / n

/-- LastAngle in UEdGraph_RefExplorer::RecursivelyCreateNodes. -/
def refexLastAngle (n : Nat) : ℝ :=
  refexDeltaAngle n * (if n = 1 then 0 else ((n - 1 : Nat) : ℝ))

/-- Radius in UEdGraph_RefExplorer::RecursivelyCreateNodes, HeightStep = 400. -/
def refexRadius (n : Nat) : ℝ :=
  400 / max |1 - Real.cos (refexDeltaAngle n)| |Real.sin (refexDeltaAngle n)|

/-- ChildLoc.Y in UEdGraph_RefExplorer::RecursivelyCreateNodes. -/
def refexChildY (py : ℝ) (n i : Nat) : ℝ :=
  py - refexRadius n * Real.sin (i * refexDeltaAngle n + (Real.pi - refexLastAngle n / 2))

/-- DeltaAngle as the claim words it. -/
def claimDeltaAngle (n : Nat) : ℝ := Real.pi / n

/-- LastAngle as the claim words it. -/
def claimLastAngle (n : Nat) : ℝ :=
  claimDeltaAngle n * (if n = 1 then 0 else ((n - 1 : Nat) : ℝ))

/-- Radius as the claim words it, with FixedStep = 400 units. -/
def claimRadius (n : Nat) : ℝ :=
  400 / max |1 - Real.cos (claimDeltaAngle n)| |Real.sin (claimDeltaAngle n)|

/-- Child x-position as the claim words it:
parentX + radius * cos(i * deltaAngle + (pi - lastAngle/2)). -/
def claimChildX (px : ℝ) (n i : Nat) : ℝ :=
  px + claimRadius n * Real.cos (i * claimDeltaAngle n + (Real.pi - claimLastAngle n / 2))

/-- Child y-position as the claim words it:
parentY - radius * sin(i * deltaAngle + (pi - lastAngle/2)). -/
def claimChildY (py : ℝ) (n i : Nat) : ℝ :=
  py - claimRadius n * Real.sin (i * claimDeltaAngle n + (Real.pi - claimLastAngle n / 2))

end

/-- ChildLoc.X in UEdGraph_RefExplorer::RecursivelyCreateNodes: integer
arithmetic, WidthStep = 256, no trigonometry:
InNodeLoc.X - (min(ChildIdx, n - ChildIdx - 1) + 1) * WidthStep. -/
def refexChildX (px : Int) (n i : Nat) : Int :=
  px - ((min i (n - i - 1) : Nat) + 1) * 256

/-- Concrete raw record with category Package and the Hard flag. -/
def recPH : AssetDependency := ⟨⟨some 1, 0⟩, DepCategory.package, ⟨true, false, false⟩⟩

/-- Concrete raw record with category Package and no Hard/Direct flag. -/
def recPS : AssetDependency := ⟨⟨some 2, 0⟩, DepCategory.package, ⟨false, false, false⟩⟩

/-- Concrete raw record with category Manage and the Hard flag. -/
def recMH : AssetDependency := ⟨⟨some 3, 0⟩, DepCategory.manage, ⟨true, false, false⟩⟩

/-- Concrete raw record with category SearchableName and no flags at all. -/
def cexSearchRec : AssetDependency :=
  ⟨⟨some 5, 0⟩, DepCategory.searchableName, ⟨false, false, false⟩⟩

/-- Concrete registry for the redirector-substitution scenario: package 10
has no package data and holds a redirector whose referencers are packages
11 and 12, both resolvable with positive size. -/
def cexReg : Registry where
  packageDiskSize := fun pkg => if pkg = 10 then none else some 5
  hasRedirector := fun pkg => decide (pkg = 10)
  referencers := fun pkg => if pkg = 10 then [⟨some 11, 0⟩, ⟨some 12, 0⟩] else []

/-- The lone classified target of the redirector scenario: a bad redirector
package. -/
def cexRedirRec : AssetDependency := ⟨⟨some 10, 0⟩, DepCategory.package, ⟨true, false, true⟩⟩

/-- A raw record against a resolvable package, used to exercise the happy
path of the pipeline at concrete inputs. -/
def goodRec : AssetDependency := ⟨⟨some 11, 0⟩, DepCategory.package, ⟨true, false, true⟩⟩

/-- A widget state with one OnFilesLoaded subscription already held. -/
def wState : SRefState := ⟨[], 1, false, 0, false⟩

/-- A burst of rebuild requests issued while the index is loading. -/
def wReqs : List (Bool × AssetId × List (AssetId × PinCategory)) :=
  [(true, ⟨some 1, 0⟩, []), (true, ⟨some 1, 0⟩, []), (false, ⟨some 1, 0⟩, []), (true, ⟨some 1, 0⟩, [])]

/-! Theorems. -/

/-- Bitwise OR on pin categories is commutative. -/
theorem PinCategory.or_comm (a b : PinCategory) : a.or b = b.or a := by
  cases a; cases b
  simp [PinCategory.or, Bool.or_comm]

/-- Bitwise OR on pin categories is associative. -/
theorem PinCategory.or_assoc (a b c : PinCategory) : (a.or b).or c = a.or (b.or c) := by
  cases a; cases b; cases c
  simp [PinCategory.or, Bool.or_assoc]

/-- Bitwise OR on pin categories is idempotent. -/
theorem PinCategory.or_self (a : PinCategory) : a.or a = a := by
  cases a
  simp [PinCategory.or]

/-- ORing record bits leaves the active bit set. -/
theorem PinCategory.active_or_record (a : PinCategory) (d : AssetDependency) :
    (a.or (recordCategory d)).active = true := by
  simp [PinCategory.or, recordCategory]

/-- How one FindOrAdd-and-OR step reads back: the touched key holds its old
value (or the LinkEndActive default) ORed with the new bits, every other key
is untouched. -/
theorem lookup_upsert (t k : AssetId) (c : PinCategory) (m : List (AssetId × PinCategory)) :
    lookupCat t (upsert k c m) =
      if k = t then some (((lookupCat k m).getD linkEndActive).or c)
      else lookupCat t m := by
  induction m with
  | nil =>
      show (if k = t then some (linkEndActive.or c) else none) = _
      by_cases h : k = t
      · rw [if_pos h, if_pos h]
        rfl
      · rw [if_neg h, if_neg h]
        rfl
  | cons p rest ih =>
      obtain ⟨k₁, c₁⟩ := p
      show lookupCat t (if k₁ = k then (k₁, c₁.or c) :: rest else (k₁, c₁) :: upsert k c rest) = _
      by_cases h₁ : k₁ = k
      · subst h₁
        rw [if_pos rfl]
        show (if k₁ = t then some (c₁.or c) else lookupCat t rest) = _
        by_cases h₂ : k₁ = t
        · rw [if_pos h₂, if_pos h₂]
          show _ = some (((if k₁ = k₁ then some c₁ else lookupCat k₁ rest).getD linkEndActive).or c)
          rw [if_pos rfl]
          rfl
        · rw [if_neg h₂, if_neg h₂]
          show lookupCat t rest = (if k₁ = t then some c₁ else lookupCat t rest)
          rw [if_neg h₂]
      · rw [if_neg h₁]
        show (if k₁ = t then some c₁ else lookupCat t (upsert k c rest)) = _
        by_cases h₂ : k₁ = t
        · rw [if_pos h₂]
          have hk : ¬k = t := fun h => h₁ (h₂.trans h.symm)
          rw [if_neg hk]
          show some c₁ = (if k₁ = t then some c₁ else lookupCat t rest)
          rw [if_pos h₂]
        · rw [if_neg h₂, ih]
          by_cases hk : k = t
          · rw [if_pos hk, if_pos hk]
            show _ = some (((if k₁ = k then some c₁ else lookupCat k rest).getD linkEndActive).or c)
            rw [if_neg h₁]
          · rw [if_neg hk, if_neg hk]
            show lookupCat t rest = (if k₁ = t then some c₁ else lookupCat t rest)
            rw [if_neg h₂]

/-- Reading any key out of the accumulation loop started from map state m. -/
theorem lookup_classifyGo (l : List AssetDependency) :
    ∀ (m : List (AssetId × PinCategory)) (t : AssetId) (c : PinCategory),
      lookupCat t (classifyGo m l) = some c → c.active = true ∨ lookupCat t m = some c := by
  induction l with
  | nil => intro m t c h; exact Or.inr h
  | cons d rest ih =>
      intro m t c h
      rcases ih (upsert d.assetId (recordCategory d) m) t c h with h₁ | h₁
      · exact Or.inl h₁
      · rw [lookup_upsert] at h₁
        by_cases ht : d.assetId = t
        · rw [if_pos ht] at h₁
          left
          cases h₁
          exact PinCategory.active_or_record _ d
        · rw [if_neg ht] at h₁
          exact Or.inr h₁

/-- C9: every category the classifier ever places in its output map has the
LinkEndActive bit set (the insertion default is LinkEndActive and every
accumulation ORs LinkEndActive in again), so the classifier never emits a
passive edge and no edge of a build is named Passive by GetName. -/
theorem classifier_never_passive (l : List AssetDependency) (t : AssetId) (c : PinCategory)
    (h : lookupCat t (classify l) = some c) :
    c.active = true ∧ getName c ≠ PinName.passive ∧ getColor c ≠ PinColor.passive := by
  have hact : c.active = true := by
    rcases lookup_classifyGo l [] t c h with h₁ | h₁
    · exact h₁
    · simp [lookupCat] at h₁
  refine ⟨hact, ?_, ?_⟩ <;>
    (obtain ⟨ca, cu, ch⟩ := c
     simp only [PinCategory.active] at hact
     subst hact
     cases cu <;> cases ch <;> decide)

/-- Witness for classifier_never_passive at a concrete record list. -/
theorem classifier_never_passive_witness :
    (⟨true, true, true⟩ : PinCategory).active = true ∧
      getName ⟨true, true, true⟩ ≠ PinName.passive ∧
      getColor ⟨true, true, true⟩ ≠ PinColor.passive :=
  classifier_never_passive [goodRec] ⟨some 11, 0⟩ ⟨true, true, true⟩ (by decide)

/-- Reading a target out of the classification of a two-record list. -/
theorem lookup_classify_pair (X Y : AssetDependency) (t : AssetId) :
    lookupCat t (classify [X, Y]) =
      if Y.assetId = t then
        some ((if X.assetId = Y.assetId then linkEndActive.or (recordCategory X)
               else linkEndActive).or (recordCategory Y))
      else if X.assetId = t then some (linkEndActive.or (recordCategory X))
      else none := by
  show lookupCat t (upsert Y.assetId (recordCategory Y) (upsert X.assetId (recordCategory X) [])) = _
  rw [lookup_upsert]
  by_cases hY : Y.assetId = t
  · rw [if_pos hY, if_pos hY, lookup_upsert]
    by_cases hXY : X.assetId = Y.assetId
    · rw [if_pos hXY, if_pos hXY]
      rfl
    · rw [if_neg hXY, if_neg hXY]
      rfl
  · rw [if_neg hY, if_neg hY, lookup_upsert]
    by_cases hX : X.assetId = t
    · rw [if_pos hX, if_pos hX]
      rfl
    · rw [if_neg hX, if_neg hX]
      rfl

/-- C5: the per-record accumulation into the category map is
order-independent and idempotent: swapping two raw records, or repeating
one, leaves the category read back for every target unchanged. -/
theorem classify_comm_idem (A B : AssetDependency) (t : AssetId) :
    lookupCat t (classify [A, B]) = lookupCat t (classify [B, A]) ∧
      lookupCat t (classify [A, A]) = lookupCat t (classify [A]) := by
  constructor
  · rw [lookup_classify_pair A B, lookup_classify_pair B A]
    by_cases hAB : A.assetId = B.assetId
    · by_cases hB : B.assetId = t
      · have hA : A.assetId = t := hAB.trans hB
        rw [if_pos hB, if_pos hA, if_pos hAB, if_pos hAB.symm,
          PinCategory.or_assoc, PinCategory.or_assoc,
          PinCategory.or_comm (recordCategory A) (recordCategory B)]
      · have hA : ¬A.assetId = t := fun h => hB (hAB ▸ h)
        rw [if_neg hB, if_neg hA, if_neg hA, if_neg hB]
    · by_cases hB : B.assetId = t
      · have hA : ¬A.assetId = t := fun h => hAB (h.trans hB.symm)
        rw [if_pos hB, if_neg hAB, if_neg hA, if_pos hB]
      · by_cases hA : A.assetId = t
        · rw [if_neg hB, if_pos hA, if_pos hA,
            if_neg (fun h : B.assetId = A.assetId => hAB h.symm)]
        · rw [if_neg hB, if_neg hA, if_neg hA, if_neg hB]
  · rw [lookup_classify_pair A A]
    show _ = lookupCat t (upsert A.assetId (recordCategory A) [])
    rw [lookup_upsert]
    by_cases hA : A.assetId = t
    · rw [if_pos hA, if_pos rfl, if_pos hA]
      show some ((linkEndActive.or (recordCategory A)).or (recordCategory A)) =
        some (((lookupCat A.assetId ([] : List (AssetId × PinCategory))).getD
          linkEndActive).or (recordCategory A))
      show some ((linkEndActive.or (recordCategory A)).or (recordCategory A)) =
        some (linkEndActive.or (recordCategory A))
      rw [PinCategory.or_assoc, PinCategory.or_self]
    · rw [if_neg hA, if_neg hA, if_neg hA]
      rfl

/-- Corrected C6: a target reachable only via a SearchableName record with
neither Hard/Direct nor Game flags is classified EndActive with
LinkTypeUsedInGame (soft, used-in-game): the accumulation treats every
non-Package category as used-in-game. -/
theorem searchable_name_soft_used_in_game (d : AssetDependency)
    (hcat : d.category = DepCategory.searchableName)
    (hhard : isHardProps d.properties = false)
    (hgame : d.properties.game = false) :
    lookupCat d.assetId (classify [d]) = some softUsedInGameCat ∧
      getName softUsedInGameCat = PinName.softUsedInGame := by
  constructor
  · show lookupCat d.assetId (upsert d.assetId (recordCategory d) []) = _
    rw [lookup_upsert, if_pos rfl]
    simp [lookupCat, recordCategory, linkEndActive, PinCategory.or, hcat, hhard, hgame,
      softUsedInGameCat]
  · decide

/-- Witness for searchable_name_soft_used_in_game at a concrete record. -/
theorem searchable_name_soft_used_in_game_witness :
    lookupCat cexSearchRec.assetId (classify [cexSearchRec]) = some softUsedInGameCat ∧
      getName softUsedInGameCat = PinName.softUsedInGame :=
  searchable_name_soft_used_in_game cexSearchRec rfl rfl rfl

/-- Counterexample to C6 as stated: the SearchableName record with no Hard
and no Game flag is NOT classified EndActive with LinkTypeNone; the
classifier returns EndActive with LinkTypeUsedInGame instead. -/
theorem searchable_name_not_editor_only :
    lookupCat (⟨some 5, 0⟩ : AssetId) (classify [cexSearchRec]) ≠ some softEditorOnlyCat ∧
      lookupCat (⟨some 5, 0⟩ : AssetId) (classify [cexSearchRec]) = some softUsedInGameCat := by
  decide

/-- categoryOrder separates the three dependency categories. -/
theorem categoryOrder_inj (a b : DepCategory) (h : categoryOrder a = categoryOrder b) :
    a = b := by
  cases a <;> cases b <;> first | rfl | exact absurd h (by decide)

/-- C4: the Algo::Sort comparator of GetSortedLinks is exactly the
lexicographic order the spec describes (category priority ascending, then
hardness descending, then package name ascending), and on records with
categories Package+Hard, Package+Soft, Manage+Hard the sort yields
Package+Hard, Package+Soft, Manage+Hard: category trumps hardness. -/
theorem sort_order_matches_spec :
    (∀ a b : AssetDependency, depLess a b = specSortLess a b) ∧
      sortByLess depLess [recMH, recPS, recPH] = [recPH, recPS, recMH] := by
  constructor
  · intro a b
    by_cases hcat : a.category = b.category
    · have horder : categoryOrder a.category = categoryOrder b.category := by rw [hcat]
      by_cases hhard : isHardProps a.properties = isHardProps b.properties
      · have hcond : ¬(a.properties ≠ b.properties ∧
            isHardProps a.properties ≠ isHardProps b.properties) := by
          rintro ⟨-, h₂⟩
          exact h₂ hhard
        simp [depLess, specSortLess, hcat, horder, hcond, hhard]
      · have hprops : a.properties ≠ b.properties := by
          intro h
          exact hhard (by rw [h])
        simp [depLess, specSortLess, hcat, horder, hprops, hhard]
    · have horder : categoryOrder a.category ≠ categoryOrder b.category :=
        fun h => hcat (categoryOrder_inj _ _ h)
      simp [depLess, specSortLess, hcat, horder]
  · decide

/-- The element under scrutiny of a take-prefix extended by one position. -/
theorem take_succ_good (reg : Registry) (ids : List AssetId) (idx : Nat) (hlt : idx < ids.length)
    (hpre : ∀ a ∈ ids.take idx, goodId reg a = true)
    (hcur : goodId reg ids[idx] = true) :
    ∀ a ∈ ids.take (idx + 1), goodId reg a = true := by
  intro a ha
  rw [← List.take_concat_get ids idx hlt] at ha
  rw [List.concat_eq_append, List.mem_append] at ha
  rcases ha with ha | ha
  · exact hpre a ha
  · rw [List.mem_singleton] at ha
    subst ha
    exact hcur

/-- Erasing the current index leaves the processed prefix unchanged. -/
theorem take_eraseIdx_self (ids : List AssetId) (idx : Nat) (hlt : idx < ids.length) :
    (ids.eraseIdx idx).take idx = ids.take idx := by
  rw [List.eraseIdx_eq_take_drop_succ]
  exact List.take_left' (by rw [List.length_take]; omega)

/-- The processed prefix of the substituted list is the processed prefix of
the original list. -/
theorem take_replaced (ids refs : List AssetId) (idx : Nat) (hlt : idx < ids.length) :
    ((ids.eraseIdx idx).take idx ++ refs ++ (ids.eraseIdx idx).drop idx).take idx =
      ids.take idx := by
  rw [List.append_assoc]
  rw [List.take_left' ?hl]
  · exact take_eraseIdx_self ids idx hlt
  · rw [List.length_take, List.length_eraseIdx, if_pos hlt]
    omega

/-- Soundness of the removal/substitution loop: when it terminates, every
identifier that survives has NAME_None as package name or resolvable,
non-negative package data. -/
theorem filterLoop_all_good (reg : Registry) :
    ∀ (fuel : Nat) (ids : List AssetId) (idx : Nat) (out : List AssetId),
      filterLoop reg fuel ids idx = some out →
      (∀ a ∈ ids.take idx, goodId reg a = true) →
      ∀ a ∈ out, goodId reg a = true := by
  intro fuel
  induction fuel with
  | zero =>
      intro ids idx out h
      simp [filterLoop] at h
  | succ fuel ih =>
      intro ids idx out h hpre
      rw [filterLoop] at h
      split at h
      · rename_i hlt
        split at h
        · rename_i heq
          refine ih ids (idx + 1) out h (take_succ_good reg ids idx hlt hpre ?_)
          simp [goodId, heq]
        · rename_i pkg heq
          split at h
          · rename_i hbad
            split at h
            · rename_i hred
              refine ih _ idx out h ?_
              simp only [take_replaced ids (reg.referencers pkg) idx hlt]
              exact hpre
            · refine ih _ idx out h ?_
              simp only [take_eraseIdx_self ids idx hlt]
              exact hpre
          · rename_i hbad
            refine ih ids (idx + 1) out h (take_succ_good reg ids idx hlt hpre ?_)
            simp [goodId, heq, hbad]
      · rename_i hge
        cases h
        intro a ha
        refine hpre a ?_
        rw [List.take_of_length_le (by omega)]
        exact ha

/-- The loop never loses a good identifier: removal happens only at an index
holding a bad one. -/
theorem filterLoop_mem (reg : Registry) :
    ∀ (fuel : Nat) (ids : List AssetId) (idx : Nat) (out : List AssetId) (a : AssetId),
      filterLoop reg fuel ids idx = some out →
      a ∈ ids → goodId reg a = true → a ∈ out := by
  intro fuel
  induction fuel with
  | zero =>
      intro ids idx out a h
      simp [filterLoop] at h
  | succ fuel ih =>
      intro ids idx out a h ha hgood
      rw [filterLoop] at h
      split at h
      · rename_i hlt
        split at h
        · exact ih ids (idx + 1) out a h ha hgood
        · rename_i pkg heq
          split at h
          · rename_i hbad
            have hae : a ≠ ids[idx] := by
              intro hcontra
              rw [hcontra] at hgood
              simp [goodId, heq, hbad] at hgood
            have hmem : a ∈ ids.eraseIdx idx := by
              have hsplit : a ∈ ids.take idx ++ ids.drop idx := by
                rw [List.take_append_drop]
                exact ha
              rw [List.drop_eq_getElem_cons hlt] at hsplit
              rw [List.mem_append, List.mem_cons] at hsplit
              rw [List.eraseIdx_eq_take_drop_succ, List.mem_append]
              rcases hsplit with h₁ | h₁ | h₁
              · exact Or.inl h₁
              · exact absurd h₁ hae
              · exact Or.inr h₁
            split at h
            · refine ih _ idx out a h ?_ hgood
              have hsplit : a ∈ (ids.eraseIdx idx).take idx ++ (ids.eraseIdx idx).drop idx := by
                rw [List.take_append_drop]
                exact hmem
              rw [List.mem_append] at hsplit
              rw [List.append_assoc, List.mem_append, List.mem_append]
              rcases hsplit with h₁ | h₁
              · exact Or.inl h₁
              · exact Or.inr (Or.inr h₁)
            · exact ih _ idx out a h hmem hgood
          · exact ih ids (idx + 1) out a h ha hgood
      · cases h
        exact ha

/-- The key array of one FindOrAdd step: unchanged for a known key, the new
key appended for a fresh one. -/
theorem upsert_keys (k : AssetId) (c : PinCategory) (m : List (AssetId × PinCategory)) :
    (upsert k c m).map Prod.fst =
      if k ∈ m.map Prod.fst then m.map Prod.fst else m.map Prod.fst ++ [k] := by
  induction m with
  | nil => simp [upsert]
  | cons p rest ih =>
      obtain ⟨k₁, c₁⟩ := p
      by_cases h₁ : k₁ = k
      · subst h₁
        simp [upsert]
      · simp only [upsert, if_neg h₁, List.map_cons, ih]
        by_cases h₂ : k ∈ rest.map Prod.fst
        · rw [if_pos h₂, if_pos (by simp [h₂])]
        · have hnotin : k ∉ k₁ :: List.map Prod.fst rest := by
            simp only [List.mem_cons, not_or]
            exact ⟨fun h => h₁ h.symm, h₂⟩
          rw [if_neg h₂, if_neg hnotin]
          simp

/-- The accumulation loop keeps the key array duplicate-free. -/
theorem classifyGo_keys_nodup (l : List AssetDependency) :
    ∀ m : List (AssetId × PinCategory),
      (m.map Prod.fst).Nodup → ((classifyGo m l).map Prod.fst).Nodup := by
  induction l with
  | nil => intro m h; exact h
  | cons d rest ih =>
      intro m h
      refine ih _ ?_
      rw [upsert_keys]
      split
      · exact h
      · rename_i hnotin
        simp [List.nodup_append, h, hnotin]

/-- The classifier's output map has duplicate-free keys. -/
theorem classify_keys_nodup (l : List AssetDependency) :
    ((classify l).map Prod.fst).Nodup :=
  classifyGo_keys_nodup l [] (by simp)

/-- GetSortedLinks reports a map with duplicate-free keys. -/
theorem getSortedLinks_keys_nodup (reg : Registry) (records : List AssetDependency) (fuel : Nat)
    (out : List (AssetId × PinCategory)) (h : getSortedLinks reg records fuel = some out) :
    (out.map Prod.fst).Nodup := by
  rw [getSortedLinks] at h
  split at h
  · cases h
  · rename_i finalIds heq
    cases h
    exact (classify_keys_nodup (sortByLess depLess records)).sublist
      ((List.filter_sublist _).map Prod.fst)

/-- Corrected C2: when the post-filter terminates, every target with
unresolvable or negative-size package data is gone from the final edge map;
the final map never gains entries (it is a sub-map of the classified map),
so substituted referencers appear in it only if they were already classified
targets; and every classified target with resolvable, non-negative package
data is retained. -/
theorem post_filter_removes_bad_targets (reg : Registry) (records : List AssetDependency)
    (fuel : Nat) (out : List (AssetId × PinCategory))
    (h : getSortedLinks reg records fuel = some out) :
    (∀ p ∈ out, goodId reg p.1 = true) ∧
      (∀ p ∈ out, p ∈ classify (sortByLess depLess records)) ∧
      (∀ p ∈ classify (sortByLess depLess records), goodId reg p.1 = true → p ∈ out) := by
  rw [getSortedLinks] at h
  split at h
  · cases h
  · rename_i finalIds heq
    cases h
    refine ⟨?_, ?_, ?_⟩
    · intro p hp
      rw [List.mem_filter] at hp
      refine filterLoop_all_good reg fuel _ 0 finalIds heq (by simp) p.1 ?_
      have := hp.2
      simpa using this
    · intro p hp
      exact (List.mem_filter.mp hp).1
    · intro p hp hgood
      rw [List.mem_filter]
      refine ⟨hp, ?_⟩
      simp only [decide_eq_true_eq]
      exact filterLoop_mem reg fuel _ 0 finalIds p.1 heq (List.mem_map_of_mem Prod.fst hp) hgood

/-- The root entry heads the shape table. -/
theorem tableLookup_shape_root (root : AssetId) (cs : List (AssetId × PinCategory))
    (rp ks : List AssetId) :
    tableLookup root (shapeTable root cs rp ks) = some ⟨root, cs, rp⟩ := by
  simp [shapeTable, tableLookup]

/-- Looking up a key held by the non-root block of the shape table. -/
theorem tableLookup_ks (root k : AssetId) (ks : List AssetId) (hk : k ∈ ks) :
    tableLookup k (ks.map (fun j => (j, (⟨j, [], [root]⟩ : NodeInfo)))) =
      some ⟨k, [], [root]⟩ := by
  induction ks with
  | nil => cases hk
  | cons a rest ih =>
      simp only [List.map_cons, tableLookup]
      by_cases ha : a = k
      · subst ha
        rw [if_pos rfl]
      · rw [if_neg ha]
        rcases List.mem_cons.mp hk with h | h
        · exact absurd h.symm ha
        · exact ih h

/-- A key outside the non-root block of the shape table is not found there. -/
theorem tableLookup_ks_none (root k : AssetId) (ks : List AssetId) (hk : k ∉ ks) :
    tableLookup k (ks.map (fun j => (j, (⟨j, [], [root]⟩ : NodeInfo)))) = none := by
  induction ks with
  | nil => rfl
  | cons a rest ih =>
      simp only [List.map_cons, tableLookup]
      rw [if_neg (fun h : a = k => hk (by rw [h]; exact List.mem_cons_self k rest))]
      exact ih (fun h => hk (List.mem_cons_of_mem a h))

/-- Looking up a non-root key of the shape table. -/
theorem tableLookup_shape_mem (root k : AssetId) (cs : List (AssetId × PinCategory))
    (rp ks : List AssetId) (hne : k ≠ root) (hk : k ∈ ks) :
    tableLookup k (shapeTable root cs rp ks) = some ⟨k, [], [root]⟩ := by
  simp only [shapeTable, tableLookup]
  rw [if_neg (fun h : root = k => hne h.symm)]
  exact tableLookup_ks root k ks hk

/-- A key absent from the shape table is not found. -/
theorem tableLookup_shape_none (root k : AssetId) (cs : List (AssetId × PinCategory))
    (rp ks : List AssetId) (hne : k ≠ root) (hk : k ∉ ks) :
    tableLookup k (shapeTable root cs rp ks) = none := by
  simp only [shapeTable, tableLookup]
  rw [if_neg (fun h : root = k => hne h.symm)]
  exact tableLookup_ks_none root k ks hk

/-- Processing the edge whose target is the root itself: the root joins its
own parent set and the edge is appended to its children. -/
theorem rebuildStep_at_root (root : AssetId) (cs : List (AssetId × PinCategory))
    (ks : List AssetId) (c : PinCategory) :
    rebuildStep root (shapeTable root cs [] ks) (root, c) =
      shapeTable root (cs ++ [(root, c)]) [root] ks := by
  simp only [rebuildStep, tableLookup_shape_root]
  simp [shapeTable, tableModify]

/-- Processing an edge to a fresh non-root target: the target is appended to
the table with the root as its only parent, and the edge is appended to the
root's children. -/
theorem rebuildStep_new_key (root : AssetId) (cs : List (AssetId × PinCategory))
    (rp ks : List AssetId) (k : AssetId) (c : PinCategory)
    (hkr : k ≠ root) (hks : k ∉ ks) :
    rebuildStep root (shapeTable root cs rp ks) (k, c) =
      shapeTable root (cs ++ [(k, c)]) rp (ks ++ [k]) := by
  simp only [rebuildStep, tableLookup_shape_none root k cs rp ks hkr hks]
  simp [shapeTable, tableModify, List.map_append, emptyInfo]

/-- Closed form of the ReferenceLinks fold in RebuildGraph: starting from a
shape table, folding links with duplicate-free keys that avoid the
already-known non-root keys appends exactly the links to the root's
children, adds the root to its own parents exactly when the root is among
the link targets, and appends one fresh entry per non-root target. -/
theorem rebuild_go_spec (root : AssetId) :
    ∀ (links cs : List (AssetId × PinCategory)) (rp ks : List AssetId),
      (links.map Prod.fst).Nodup →
      (∀ k ∈ links.map Prod.fst, k ∉ ks) →
      root ∉ ks →
      (root ∈ links.map Prod.fst → rp = []) →
      List.foldl (rebuildStep root) (shapeTable root cs rp ks) links =
        shapeTable root (cs ++ links)
          (if root ∈ links.map Prod.fst then [root] else rp)
          (ks ++ (links.map Prod.fst).filter (fun k => decide (k ≠ root))) := by
  intro links
  induction links with
  | nil =>
      intro cs rp ks _ _ _ _
      simp
  | cons pair rest ih =>
      obtain ⟨k, c⟩ := pair
      intro cs rp ks hnd hks hroot hrp
      simp only [List.map_cons, List.nodup_cons] at hnd
      simp only [List.foldl_cons]
      by_cases hkroot : k = root
      · subst hkroot
        have hrp0 : rp = [] := hrp (by simp)
        subst hrp0
        rw [rebuildStep_at_root k cs ks c]
        rw [ih (cs ++ [(k, c)]) [k] ks hnd.2 (fun j hj => hks j (List.mem_cons_of_mem k hj)) hroot
          (fun h => absurd h hnd.1)]
        rw [if_neg hnd.1]
        simp [List.filter_cons, List.append_assoc]
      · rw [rebuildStep_new_key root cs rp ks k c hkroot (hks k (by simp))]
        have hks2 : ∀ j ∈ rest.map Prod.fst, j ∉ ks ++ [k] := by
          intro j hj
          simp only [List.mem_append, List.mem_singleton, not_or]
          exact ⟨hks j (List.mem_cons_of_mem k hj), fun h => hnd.1 (h ▸ hj)⟩
        have hroot2 : root ∉ ks ++ [k] := by
          simp only [List.mem_append, List.mem_singleton, not_or]
          exact ⟨hroot, fun h => hkroot h.symm⟩
        rw [ih (cs ++ [(k, c)]) rp (ks ++ [k]) hnd.2 hks2 hroot2
          (fun h => hrp (List.mem_cons_of_mem k h))]
        have hmem : (root ∈ List.map Prod.fst ((k, c) :: rest)) = (root ∈ rest.map Prod.fst) := by
          apply propext
          constructor
          · intro h
            rcases List.mem_cons.mp h with h | h
            · exact absurd h.symm hkroot
            · exact h
          · exact fun h => List.mem_cons_of_mem k h
        simp only [hmem]
        simp [List.filter_cons, hkroot, List.append_assoc]

/-- The key array of a shape table: the root first, then the non-root keys. -/
theorem shape_keys (root : AssetId) (cs : List (AssetId × PinCategory)) (rp ks : List AssetId) :
    (shapeTable root cs rp ks).map Prod.fst = root :: ks := by
  simp [shapeTable, List.map_map]
  exact List.map_id ks

/-- RebuildGraph in closed form, for links with duplicate-free keys. -/
theorem rebuildGraph_closed (prior : Table) (root : AssetId)
    (links : List (AssetId × PinCategory)) (hnd : (links.map Prod.fst).Nodup) :
    rebuildGraph prior root links =
      shapeTable root links
        (if root ∈ links.map Prod.fst then [root] else [])
        ((links.map Prod.fst).filter (fun k => decide (k ≠ root))) := by
  show List.foldl (rebuildStep root) (shapeTable root [] [] []) links = _
  rw [rebuild_go_spec root links [] [] [] hnd (by simp) (by simp) (fun _ => rfl)]
  simp

/-- C3: even when the index reports the same (root, target) pair many times,
one RebuildGraph leaves the target exactly once in the node-info table,
exactly one edge to it in the root's children, and the root exactly once in
its parent set. -/
theorem rebuild_dedup (reg : Registry) (records : List AssetDependency) (fuel : Nat)
    (links : List (AssetId × PinCategory)) (prior : Table) (root t : AssetId)
    (hres : getSortedLinks reg records fuel = some links)
    (ht : t ∈ links.map Prod.fst) :
    ((rebuildGraph prior root links).map Prod.fst).count t = 1 ∧
      ((childrenOf (rebuildGraph prior root links) root).map Prod.fst).count t = 1 ∧
      (parentsOf (rebuildGraph prior root links) t).count root = 1 := by
  have hnd := getSortedLinks_keys_nodup reg records fuel links hres
  rw [rebuildGraph_closed prior root links hnd]
  refine ⟨?_, ?_, ?_⟩
  · rw [shape_keys]
    by_cases htr : t = root
    · subst htr
      rw [List.count_cons_self]
      rw [List.count_eq_zero_of_not_mem (by simp)]
    · rw [List.count_cons_of_ne htr]
      rw [List.count_filter (by simp [htr])]
      exact List.count_eq_one_of_mem hnd ht
  · rw [childrenOf, tableLookup_shape_root]
    exact List.count_eq_one_of_mem hnd ht
  · by_cases htr : t = root
    · subst htr
      rw [parentsOf, tableLookup_shape_root, if_pos ht]
      simp
    · rw [parentsOf, tableLookup_shape_mem root t _ _ _ htr (by simp [ht, htr])]
      simp

/-- A node with no recorded children is created as a leaf at any fuel. -/
theorem recurseCreate_leaf (tbl : Table) (k : AssetId) (d : Nat)
    (h : childrenOf tbl k = []) : recurseCreate tbl d k = VTree.node k [] := by
  cases d <;> simp [recurseCreate, h]

/-- A bound on the depth of a list of trees from a bound on its members. -/
theorem depthList_le (cs : List VTree) (b : Nat) (h : ∀ c ∈ cs, VTree.depth c ≤ b) :
    VTree.depthList cs ≤ b := by
  induction cs with
  | nil => simp [VTree.depthList]
  | cons c rest ih =>
      rw [VTree.depthList]
      exact max_le (h c (by simp)) (ih (fun j hj => h j (List.mem_cons_of_mem c hj)))

/-- C10: after RebuildGraph, only the root's info can have children: every
non-root info has empty children and exactly the root as parent, the result
is independent of any prior table, and the visual tree RecursivelyCreateNodes
builds has depth at most one below the root at every fuel. -/
theorem rebuild_single_level (reg : Registry) (records : List AssetDependency) (fuel : Nat)
    (links : List (AssetId × PinCategory)) (prior : Table) (root : AssetId)
    (hres : getSortedLinks reg records fuel = some links)
    (hroot : root ∉ links.map Prod.fst) :
    (∀ k info, (k, info) ∈ rebuildGraph prior root links → k ≠ root →
        info.children = [] ∧ info.parents = [root]) ∧
      (∀ p₂ : Table, rebuildGraph prior root links = rebuildGraph p₂ root links) ∧
      (∀ d : Nat, VTree.depth (recurseCreate (rebuildGraph prior root links) d root) ≤ 2) := by
  have hnd := getSortedLinks_keys_nodup reg records fuel links hres
  have hclosed := rebuildGraph_closed prior root links hnd
  refine ⟨?_, fun p₂ => rfl, ?_⟩
  · intro k info hmem hne
    rw [hclosed] at hmem
    rcases List.mem_cons.mp hmem with h | h
    · cases h
      exact absurd rfl hne
    · rcases List.mem_map.mp h with ⟨j, _, hj⟩
      cases hj
      exact ⟨rfl, rfl⟩
  · intro d
    rw [hclosed]
    cases d with
    | zero => simp [recurseCreate, VTree.depth, VTree.depthList]
    | succ d =>
        rw [recurseCreate, childrenOf, tableLookup_shape_root, VTree.depth]
        have hstep : ∀ m : Nat, m ≤ 1 → 1 + m ≤ 2 := fun m hm => by omega
        refine hstep _ (depthList_le _ 1 ?_)
        intro c hc
        rcases List.mem_map.mp hc with ⟨p, hp, hpc⟩
        have hp1 : p.1 ∈ links.map Prod.fst := List.mem_map_of_mem Prod.fst hp
        have hpne : p.1 ≠ root := fun h => hroot (h ▸ hp1)
        have hleaf : childrenOf
            (shapeTable root links (if root ∈ links.map Prod.fst then [root] else [])
              ((links.map Prod.fst).filter (fun k => decide (k ≠ root)))) p.1 = [] := by
          rw [childrenOf, tableLookup_shape_mem root p.1 _ _ _ hpne (by simp [hp1, hpne])]
        rw [← hpc, recurseCreate_leaf _ _ _ hleaf]
        simp [VTree.depth, VTree.depthList]

/-- The OnFilesLoaded subscription count after one widget rebuild call:
unchanged unless the call happens while loading with no subscription yet. -/
theorem widgetRebuild_subs (b : Bool) (root : AssetId) (links : List (AssetId × PinCategory))
    (s : SRefState) :
    (widgetRebuild b root links s).filesLoadedSubs =
      if b = true ∧ s.filesLoadedSubs = 0 then 1 else s.filesLoadedSubs := by
  cases b
  · simp only [widgetRebuild, Bool.false_eq_true, if_false, false_and]
    split <;> rfl
  · by_cases h : s.filesLoadedSubs = 0 <;> simp [widgetRebuild, h]

/-- C7: a rebuild requested while the index is still loading changes nothing
but the OnFilesLoaded subscription (no node info, no visual node, no flag is
touched, and the subscription is added only when absent); the registered
continuation performs the full rebuild; and across any sequence of rebuild
requests the widget never holds more than one OnFilesLoaded subscription. -/
theorem rebuild_defers_while_loading :
    (∀ (root : AssetId) (links : List (AssetId × PinCategory)) (s : SRefState),
        widgetRebuild true root links s =
          { s with filesLoadedSubs := if s.filesLoadedSubs = 0 then 1 else s.filesLoadedSubs }) ∧
      (∀ (root : AssetId) (links : List (AssetId × PinCategory)) (s : SRefState),
        (onInitialSearchComplete root links s).table = rebuildGraph s.table root links) ∧
      (∀ (s : SRefState) (reqs : List (Bool × AssetId × List (AssetId × PinCategory))),
        s.filesLoadedSubs ≤ 1 → (runRebuildRequests s reqs).filesLoadedSubs ≤ 1) := by
  refine ⟨?_, fun root links s => rfl, ?_⟩
  · intro root links s
    by_cases h : s.filesLoadedSubs = 0 <;> simp [widgetRebuild, h]
  · intro s reqs
    induction reqs generalizing s with
    | nil => exact fun h => h
    | cons r rest ih =>
        intro h
        show (runRebuildRequests (widgetRebuild r.1 r.2.1 r.2.2 s) rest).filesLoadedSubs ≤ 1
        refine ih _ ?_
        rw [widgetRebuild_subs]
        split
        · exact le_refl 1
        · exact h

/-- Witness for rebuild_defers_while_loading at a concrete widget state and
request burst. -/
theorem rebuild_defers_while_loading_witness :
    (runRebuildRequests wState wReqs).filesLoadedSubs ≤ 1 :=
  rebuild_defers_while_loading.2.2 wState wReqs (by decide)

/-- C8: the asset-registry change handler only raises the dirty flag: table,
subscriptions and handle are untouched and no rebuild runs; the next
explicit refresh (with the index ready) performs the full rebuild and
clears the flag. -/
theorem registry_change_only_sets_dirty (s : SRefState) (root : AssetId)
    (links : List (AssetId × PinCategory)) :
    (onAssetRegistryChanged s).table = s.table ∧
      (onAssetRegistryChanged s).filesLoadedSubs = s.filesLoadedSubs ∧
      (onAssetRegistryChanged s).refreshHandleValid = s.refreshHandleValid ∧
      (onAssetRegistryChanged s).changeSubs = s.changeSubs ∧
      (onAssetRegistryChanged s).dirtyResults = true ∧
      (refreshClicked false root links (onAssetRegistryChanged s)).table =
        rebuildGraph s.table root links ∧
      (refreshClicked false root links (onAssetRegistryChanged s)).dirtyResults = false := by
  refine ⟨rfl, rfl, rfl, rfl, rfl, ?_, ?_⟩
  · simp only [refreshClicked, widgetRebuild, Bool.false_eq_true, if_false]
    split <;> rfl
  · simp only [refreshClicked, widgetRebuild, Bool.false_eq_true, if_false]
    split <;> rfl

/-- Corrected C1: the y-formula of the claim holds in both variants, and the
x-formula holds in the ReferenceExplorer variant (src/unnamed/part_001) with
FixedStep = 400; the RefExplorer variant computes x by an integer step rule
instead (see the counterexample). -/
theorem layout_formulas (px py : ℝ) (n i : Nat) :
    reChildX px n i = claimChildX px n i ∧
      reChildY py n i = claimChildY py n i ∧
      refexChildY py n i = claimChildY py n i :=
  ⟨rfl, rfl, rfl⟩

/-- Auxiliary evaluation: the claimed deltaAngle at one child. -/
theorem claimDeltaAngle_one : claimDeltaAngle 1 = Real.pi := by
  rw [claimDeltaAngle]
  simp

/-- Auxiliary evaluation: the claimed lastAngle at one child. -/
theorem claimLastAngle_one : claimLastAngle 1 = 0 := by
  rw [claimLastAngle, if_pos rfl, mul_zero]

/-- Auxiliary evaluation: the claimed radius at one child is 200. -/
theorem claimRadius_one : claimRadius 1 = 200 := by
  rw [claimRadius, claimDeltaAngle_one, Real.cos_pi, Real.sin_pi]
  rw [show (1 : ℝ) - (-1) = 2 by norm_num, abs_two, abs_zero,
    max_eq_left (by norm_num : (0 : ℝ) ≤ 2)]
  norm_num

/-- Counterexample to C1 as stated: at a single child of a parent at the
origin, the RefExplorer variant places the child at x = -256 (the integer
step rule with WidthStep = 256), while the claimed formula yields
x = 0 + 200 * cos(pi) = -200. -/
theorem layout_x_mismatch : ((refexChildX 0 1 0 : Int) : ℝ) ≠ claimChildX 0 1 0 := by
  have hang : ((0 : Nat) : ℝ) * claimDeltaAngle 1 + (Real.pi - claimLastAngle 1 / 2) =
      Real.pi := by
    rw [claimLastAngle_one]
    push_cast
    ring
  have hx : claimChildX 0 1 0 = -200 := by
    rw [claimChildX, claimRadius_one, hang, Real.cos_pi]
    ring
  rw [hx, show refexChildX 0 1 0 = -256 by decide]
  norm_num

/-- Counterexample to C2 as stated: package 10 is a bad redirector whose own
referencers are packages 11 and 12, yet after the post-filter the final edge
map is empty: the substituted referencers do not appear in the reported edge
set because they were never classified targets,and the redirector itself is
gone. -/
theorem redirector_substitution_cex :
    badPackage cexReg 10 = true ∧
      cexReg.hasRedirector 10 = true ∧
      cexReg.referencers 10 = [⟨some 11, 0⟩, ⟨some 12, 0⟩] ∧
      (classify (sortByLess depLess [cexRedirRec])).map Prod.fst = [⟨some 10, 0⟩] ∧
      getSortedLinks cexReg [cexRedirRec] 10 = some [] := by
  decide

/-- Witness for post_filter_removes_bad_targets on the happy path. -/
theorem post_filter_removes_bad_targets_witness :
    (∀ p ∈ [((⟨some 11, 0⟩ : AssetId), (⟨true, true, true⟩ : PinCategory))],
        goodId cexReg p.1 = true) ∧
      (∀ p ∈ [((⟨some 11, 0⟩ : AssetId), (⟨true, true, true⟩ : PinCategory))],
        p ∈ classify (sortByLess depLess [goodRec])) ∧
      (∀ p ∈ classify (sortByLess depLess [goodRec]), goodId cexReg p.1 = true →
        p ∈ [((⟨some 11, 0⟩ : AssetId), (⟨true, true, true⟩ : PinCategory))]) :=
  post_filter_removes_bad_targets cexReg [goodRec] 5
    [(⟨some 11, 0⟩, ⟨true, true, true⟩)] (by decide)

/-- Witness for rebuild_dedup: the index reports the same pair twice, all
three counts are one. -/
theorem rebuild_dedup_witness :
    ((rebuildGraph [] ⟨some 1, 0⟩ [(⟨some 11, 0⟩, ⟨true, true, true⟩)]).map Prod.fst).count
        ⟨some 11, 0⟩ = 1 ∧
      ((childrenOf (rebuildGraph [] ⟨some 1, 0⟩ [(⟨some 11, 0⟩, ⟨true, true, true⟩)])
          ⟨some 1, 0⟩).map Prod.fst).count ⟨some 11, 0⟩ = 1 ∧
      (parentsOf (rebuildGraph [] ⟨some 1, 0⟩ [(⟨some 11, 0⟩, ⟨true, true, true⟩)])
          ⟨some 11, 0⟩).count ⟨some 1, 0⟩ = 1 :=
  rebuild_dedup cexReg [goodRec, goodRec] 5 [(⟨some 11, 0⟩, ⟨true, true, true⟩)] []
    ⟨some 1, 0⟩ ⟨some 11, 0⟩ (by decide) (by decide)

/-- Witness for rebuild_single_level at a concrete one-edge build. -/
theorem rebuild_single_level_witness :
    (∀ k info, (k, info) ∈ rebuildGraph [] ⟨some 1, 0⟩
          [(⟨some 11, 0⟩, ⟨true, true, true⟩)] → k ≠ ⟨some 1, 0⟩ →
        info.children = [] ∧ info.parents = [⟨some 1, 0⟩]) ∧
      (∀ p₂ : Table, rebuildGraph [] ⟨some 1, 0⟩ [(⟨some 11, 0⟩, ⟨true, true, true⟩)] =
        rebuildGraph p₂ ⟨some 1, 0⟩ [(⟨some 11, 0⟩, ⟨true, true, true⟩)]) ∧
      (∀ d : Nat, VTree.depth (recurseCreate
        (rebuildGraph [] ⟨some 1, 0⟩ [(⟨some 11, 0⟩, ⟨true, true, true⟩)]) d
        ⟨some 1, 0⟩) ≤ 2) :=
  rebuild_single_level cexReg [goodRec] 5 [(⟨some 11, 0⟩, ⟨true, true, true⟩)] []
    ⟨some 1, 0⟩ (by decide) (by decide)

end RefExplorer
